import Mathlib

/-!
# Verification of the PlutoTools interpolation / transform engine

Shallow embedding of the numerical core of the PlutoTools repository
(`PlutoTools/PlutoTools/Tools.py` and `simulationData.py`).  Machine floats
are modelled by `ℚ`; a NumPy NaN cell is modelled by `Option ℚ` with `none`
standing for NaN.  Fallible NumPy / SciPy operations (broadcasting errors,
`scipy.interpolate.interp1d` out-of-domain errors) are modelled by `Option`.
-/

namespace PlutoTools

/-! ## IonFractionCollection (Tools.py lines 25-184)

The three axes and the 20×20×20 data cube are modelled as total functions on
`ℤ`; the fields mirror the attributes set up by `loadIonData`.  The queries of
`interpolateIonFraction` are taken directly in base-10 log space (the Python
function first applies `np.log10` to its three arguments; the axis arrays are
stored as logs after `loadIonData`), so `interpolateIonFractionLog` below is
the source lookup with `x = log10 temp`, `y = log10 zeta`, `z = log10 nn`. -/

structure IonFractionCollection where
  n_temp : ℕ
  n_zeta : ℕ
  n_nn : ℕ
  d_temp : ℚ
  d_zeta : ℚ
  d_nn : ℚ
  start_temp : ℚ
  end_temp : ℚ
  start_zeta : ℚ
  end_zeta : ℚ
  start_nn : ℚ
  end_nn : ℚ
  temp_array : ℤ → ℚ
  zeta_array : ℤ → ℚ
  nn_array : ℤ → ℚ
  data : ℤ → ℤ → ℤ → ℚ

/-- Common body of `getIndicesForTempValue`, `getIndicesForZetaValue` and
`getIndicesForNnValue` (Tools.py lines 76-125): the three Python methods are
identical up to the axis fields they read.  `x ≤ 0` clamps low to `(0,0)`,
`x ≥ end - start` clamps high to `(n-1, n-1)`, otherwise the bracket is
`(⌊x/d⌋, ⌈x/d⌉)`. -/
def bracketIndices (start endv d : ℚ) (n : ℕ) (x : ℚ) : ℤ × ℤ :=
  if x - start ≤ 0 then (0, 0)
  else if endv - start ≤ x - start then ((n : ℤ) - 1, (n : ℤ) - 1)
  else (⌊(x - start) / d⌋, ⌈(x - start) / d⌉)

/-- `IonFractionCollection.getIndicesForTempValue` (Tools.py lines 76-91). -/
def getIndicesForTempValue (col : IonFractionCollection) (x : ℚ) : ℤ × ℤ :=
  bracketIndices col.start_temp col.end_temp col.d_temp col.n_temp x

/-- `IonFractionCollection.getIndicesForZetaValue` (Tools.py lines 93-108). -/
def getIndicesForZetaValue (col : IonFractionCollection) (x : ℚ) : ℤ × ℤ :=
  bracketIndices col.start_zeta col.end_zeta col.d_zeta col.n_zeta x

/-- `IonFractionCollection.getIndicesForNnValue` (Tools.py lines 110-125). -/
def getIndicesForNnValue (col : IonFractionCollection) (x : ℚ) : ℤ × ℤ :=
  bracketIndices col.start_nn col.end_nn col.d_nn col.n_nn x

/-- The scaled difference coordinate `x_d` along the temperature axis
(Tools.py lines 139-153): `(x - x0) / (x1 - x0)`, overridden to `0` in the
boundary case `x0 == x1`. -/
def tempWeight (col : IonFractionCollection) (x : ℚ) : ℚ :=
  let lr := getIndicesForTempValue col x
  let x0 := col.temp_array lr.1
  let x1 := col.temp_array lr.2
  if x0 = x1 then 0 else (x - x0) / (x1 - x0)

/-- The scaled difference coordinate `y_d` along the zeta axis
(Tools.py lines 141-156). -/
def zetaWeight (col : IonFractionCollection) (y : ℚ) : ℚ :=
  let lr := getIndicesForZetaValue col y
  let y0 := col.zeta_array lr.1
  let y1 := col.zeta_array lr.2
  if y0 = y1 then 0 else (y - y0) / (y1 - y0)

/-- The scaled difference coordinate `z_d` along the nn axis
(Tools.py lines 143-159). -/
def nnWeight (col : IonFractionCollection) (z : ℚ) : ℚ :=
  let lr := getIndicesForNnValue col z
  let z0 := col.nn_array lr.1
  let z1 := col.nn_array lr.2
  if z0 = z1 then 0 else (z - z0) / (z1 - z0)

/-- `IonFractionCollection.interpolateIonFraction` (Tools.py lines 127-184)
expressed in log space: the Python method first replaces its raw arguments by
their base-10 logarithms, so `x`, `y`, `z` here are those log coordinates.
The trilinear blend reduces the temperature axis first, then zeta, then nn,
exactly in the order of Tools.py lines 171-182. -/
def interpolateIonFractionLog (col : IonFractionCollection) (x y z : ℚ) : ℚ :=
  let xlr := getIndicesForTempValue col x
  let ylr := getIndicesForZetaValue col y
  let zlr := getIndicesForNnValue col z
  let x_d := tempWeight col x
  let y_d := zetaWeight col y
  let z_d := nnWeight col z
  let c000 := col.data xlr.1 ylr.1 zlr.1
  let c001 := col.data xlr.1 ylr.1 zlr.2
  let c010 := col.data xlr.1 ylr.2 zlr.1
  let c011 := col.data xlr.1 ylr.2 zlr.2
  let c100 := col.data xlr.2 ylr.1 zlr.1
  let c101 := col.data xlr.2 ylr.1 zlr.2
  let c110 := col.data xlr.2 ylr.2 zlr.1
  let c111 := col.data xlr.2 ylr.2 zlr.2
  let c00 := c000 * (1 - x_d) + c100 * x_d
  let c01 := c001 * (1 - x_d) + c101 * x_d
  let c10 := c010 * (1 - x_d) + c110 * x_d
  let c11 := c011 * (1 - x_d) + c111 * x_d
  let c0 := c00 * (1 - y_d) + c10 * y_d
  let c1 := c01 * (1 - y_d) + c11 * y_d
  c0 * (1 - z_d) + c1 * z_d

/-- The lookup restricted to the single temperature plane `xl` selected by the
bracket search: what "the degenerate axis contributes only its single
bracketing plane" means when the temperature bracket is zero-width. -/
def lookupPlaneTemp (col : IonFractionCollection) (x y z : ℚ) : ℚ :=
  let xl := (getIndicesForTempValue col x).1
  let ylr := getIndicesForZetaValue col y
  let zlr := getIndicesForNnValue col z
  let y_d := zetaWeight col y
  let z_d := nnWeight col z
  let c00 := col.data xl ylr.1 zlr.1
  let c01 := col.data xl ylr.1 zlr.2
  let c10 := col.data xl ylr.2 zlr.1
  let c11 := col.data xl ylr.2 zlr.2
  let c0 := c00 * (1 - y_d) + c10 * y_d
  let c1 := c01 * (1 - y_d) + c11 * y_d
  c0 * (1 - z_d) + c1 * z_d

/-- The lookup restricted to the single zeta plane `yl` selected by the
bracket search. -/
def lookupPlaneZeta (col : IonFractionCollection) (x y z : ℚ) : ℚ :=
  let xlr := getIndicesForTempValue col x
  let yl := (getIndicesForZetaValue col y).1
  let zlr := getIndicesForNnValue col z
  let x_d := tempWeight col x
  let z_d := nnWeight col z
  let c00 := col.data xlr.1 yl zlr.1
  let c01 := col.data xlr.1 yl zlr.2
  let c10 := col.data xlr.2 yl zlr.1
  let c11 := col.data xlr.2 yl zlr.2
  let c0 := c00 * (1 - x_d) + c10 * x_d
  let c1 := c01 * (1 - x_d) + c11 * x_d
  c0 * (1 - z_d) + c1 * z_d

/-- The lookup restricted to the single nn plane `zl` selected by the bracket
search. -/
def lookupPlaneNn (col : IonFractionCollection) (x y z : ℚ) : ℚ :=
  let xlr := getIndicesForTempValue col x
  let ylr := getIndicesForZetaValue col y
  let zl := (getIndicesForNnValue col z).1
  let x_d := tempWeight col x
  let y_d := zetaWeight col y
  let c00 := col.data xlr.1 ylr.1 zl
  let c01 := col.data xlr.1 ylr.2 zl
  let c10 := col.data xlr.2 ylr.1 zl
  let c11 := col.data xlr.2 ylr.2 zl
  let c0 := c00 * (1 - x_d) + c10 * x_d
  let c1 := c01 * (1 - x_d) + c11 * x_d
  c0 * (1 - y_d) + c1 * y_d

/-- A uniformly spaced, strictly increasing axis of length `n` with spacing
`d`, as produced by `loadIonData` on uniformly log-spaced input tables:
`a i = start + i * d` for `0 ≤ i < n`. -/
def UniformAxis (a : ℤ → ℚ) (start d : ℚ) (n : ℕ) : Prop :=
  0 < d ∧ 2 ≤ n ∧ ∀ i : ℤ, 0 ≤ i → i < (n : ℤ) → a i = start + i * d

/-! ## Regular-grid point sampling (Tools.py lines 528-541)

A NumPy 2-D array is a shape `(rows, cols)` together with its entries. -/

structure Arr2 where
  rows : ℕ
  cols : ℕ
  val : ℕ → ℕ → ℚ

/-- `scipy.ndimage.map_coordinates(data, [[r],[c]], order=1)` with the default
boundary handling `mode='constant', cval=0.0`: a coordinate outside the input
extent `[0, rows-1] × [0, cols-1]` yields the constant fill value `0.0`
(legacy `constant` mode performs no interpolation beyond the edges), and an
in-range fractional coordinate is evaluated by bilinear interpolation between
the four surrounding samples. -/
def mapCoordinates1 (a : Arr2) (r c : ℚ) : ℚ :=
  if r < 0 ∨ ((a.rows : ℚ) - 1) < r ∨ c < 0 ∨ ((a.cols : ℚ) - 1) < c then 0
  else
    let i := (⌊r⌋).toNat
    let j := (⌊c⌋).toNat
    let fr := r - (⌊r⌋ : ℚ)
    let fc := c - (⌊c⌋ : ℚ)
    (1 - fr) * ((1 - fc) * a.val i j + fc * a.val i (j + 1))
      + fr * ((1 - fc) * a.val (i + 1) j + fc * a.val (i + 1) (j + 1))

/-- An `AxisRange` triple `[start, end, sampleCount]` as passed for `x_range`
and `y_range`. -/
structure Range1 where
  lo : ℚ
  hi : ℚ
  n : ℕ

/-- `Interpolate.interpolatePoint2D` (Tools.py lines 536-541): builds the
fractional index pair `pp` with the Y (vertical) coordinate first,
`(p[1] - y_range[0]) * y_range[2] / (y_range[1] - y_range[0])`, and the X
coordinate second, then samples `data` by order-1 `map_coordinates`. -/
def interpolatePoint2D (xr yr : Range1) (data : Arr2) (p : ℚ × ℚ) : ℚ :=
  let pp : ℚ × ℚ :=
    ((p.2 - yr.lo) * (yr.n : ℚ) / (yr.hi - yr.lo),
     (p.1 - xr.lo) * (xr.n : ℚ) / (xr.hi - xr.lo))
  mapCoordinates1 data pp.1 pp.2

/-- `Interpolate.singlePointInterpolation` (Tools.py lines 529-534): the ODE
right-hand side; the time argument `t` is ignored, and the two velocity grids
are sampled at the same fractional index pair (Y first, X second). -/
def singlePointInterpolation (t : ℚ) (p : ℚ × ℚ) (vx1 vx2 : Arr2)
    (xr yr : Range1) : ℚ × ℚ :=
  let pp : ℚ × ℚ :=
    ((p.2 - yr.lo) * (yr.n : ℚ) / (yr.hi - yr.lo),
     (p.1 - xr.lo) * (xr.n : ℚ) / (xr.hi - xr.lo))
  (mapCoordinates1 vx1 pp.1 pp.2, mapCoordinates1 vx2 pp.1 pp.2)

/-! ## Streamline tracing (Tools.py lines 323-357)

`Compute.computeStreamline` drives a SciPy `vode` integrator inside

    while Interpolate.interpolatePoint2D(x_range, y_range, vabs,
                                         (solver.y[0], solver.y[1])) > limit:
        solver.integrate(t1, step=True)
        x.append(solver.y[0]); y.append(solver.y[1])

The opaque adaptive solver step `solver.integrate(t1, step=True)` is modelled
by a caller-supplied transition `stepf` on positions; `vabs` is the speed grid
`sqrt(vx1**2 + vx2**2)`.  The Python loop has no step bound at all, so the
embedding is indexed by a fuel counter: `none` means the loop is still running
after `fuel` iterations, `some (p, path)` means the loop exited at position
`p` with the accumulated traced path. -/
def computeStreamlineRun (stepf : ℚ × ℚ → ℚ × ℚ) (vabs : Arr2) (xr yr : Range1)
    (limit : ℚ) : ℕ → ℚ × ℚ → List (ℚ × ℚ) → Option ((ℚ × ℚ) × List (ℚ × ℚ))
  | 0, _, _ => none
  | n + 1, p, acc =>
    if limit < interpolatePoint2D xr yr vabs p then
      computeStreamlineRun stepf vabs xr yr limit n (stepf p) (acc ++ [stepf p])
    else some (p, acc)

/-! ## Resampling to a uniform Cartesian grid (Tools.py lines 564-576,
simulationData.py lines 573-581)

`np.linspace(lo, hi, n)` and the masking step.  NaN cells are `none`.  The
scattered-data interpolation `scipy.interpolate.griddata` over the flattened
polar point cloud is an external Delaunay-based routine; the claims about
`interpolateToUniformGrid` concern only the post-processing mask, which is
applied to whatever value array `griddata` returned, so that array enters the
embedding as the parameter `g` (with `none` for out-of-hull NaN cells). -/

/-- `np.linspace(r.lo, r.hi, r.n)` at index `i`: `lo + i * (hi - lo)/(n - 1)`
(for `n = 1` NumPy returns `[lo]`; `ℚ` division by zero is `0`, giving the
same value). -/
def linspace (r : Range1) (i : ℕ) : ℚ :=
  r.lo + i * (r.hi - r.lo) / ((r.n : ℚ) - 1)

/-- `Interpolate.interpolateToUniformGrid` (PlutoTools/Tools.py lines
564-576), value array: cell `(i, j)` of the meshgrid has Cartesian
coordinates `X = linspace x_range j`, `Y = linspace y_range i`; the source
masks `newVariable[grid_r < 1.0] = np.nan` where `grid_r =
sqrt(grid_x**2 + grid_y**2)`—for nonnegative radicands `sqrt(v) < 1` is
exactly `v < 1`, so the mask condition is written on the squares. -/
def interpolateToUniformGrid (g : ℕ → ℕ → Option ℚ) (xr yr : Range1)
    (i j : ℕ) : Option ℚ :=
  if (linspace xr j) ^ 2 + (linspace yr i) ^ 2 < 1 then none else g i j

/-- `Tools.interpolateToUniformGrid` (simulationData.py lines 573-581), value
array: identical pipeline but with no inner-boundary masking step — the
returned value array is the raw `griddata` output. -/
def interpolateToUniformGridSimData (g : ℕ → ℕ → Option ℚ) (xr yr : Range1)
    (i j : ℕ) : Option ℚ :=
  g i j

/-! ## Vector-field rotation with NumPy broadcasting (Tools.py lines 493-509)

`transformVelocityFieldToCylindrical` computes

    x2 = np.transpose(np.tile(self.data.x2, (len(self.data.x1), 1)))
    vx1_t = vx1 * np.sin(x2) + vx2 * np.cos(x2)
    vx2_t = vx1 * np.cos(x2) - vx2 * np.sin(x2)

There is no shape check: the elementwise `*`, `+`, `-` follow NumPy's 2-D
broadcasting rule (each dimension pair must be equal or one of them 1,
otherwise a `ValueError` is raised, modelled by `none`).  `np.sin` / `np.cos`
are irrational, so the elementwise trig maps enter as function parameters
`s c : ℚ → ℚ`; the shape/error behaviour is independent of them. -/

/-- NumPy broadcast of one dimension pair: equal sizes, or a 1 stretched to
the other size; incompatible sizes raise. -/
def bcastDim (m n : ℕ) : Option ℕ :=
  if m = n then some m else if m = 1 then some n else if n = 1 then some m
  else none

/-- Two sizes are broadcast-compatible. -/
def BcastOk (m n : ℕ) : Prop :=
  m = n ∨ m = 1 ∨ n = 1

/-- Elementwise binary NumPy operation with 2-D broadcasting. -/
def broadcastBin (f : ℚ → ℚ → ℚ) (a b : Arr2) : Option Arr2 :=
  match bcastDim a.rows b.rows, bcastDim a.cols b.cols with
  | some r, some c =>
    some ⟨r, c, fun i j =>
      f (a.val (if a.rows = 1 then 0 else i) (if a.cols = 1 then 0 else j))
        (b.val (if b.rows = 1 then 0 else i) (if b.cols = 1 then 0 else j))⟩
  | _, _ => none

/-- Elementwise unary map (`np.sin`, `np.cos`) preserving the shape. -/
def mapArr (f : ℚ → ℚ) (a : Arr2) : Arr2 :=
  ⟨a.rows, a.cols, fun i j => f (a.val i j)⟩

/-- The broadcast angle array
`np.transpose(np.tile(x2, (len(x1), 1)))`: shape `(len(x2), len(x1))`, row
`i` constantly `x2[i]`. -/
def tiledX2 (x1 x2 : List ℚ) : Arr2 :=
  ⟨x2.length, x1.length, fun i _ => x2.getD i 0⟩

/-- `Transform.transformVelocityFieldToCylindrical` (Tools.py lines 493-500)
over mesh axes `x1`, `x2` and field arrays `vx1`, `vx2`, parameterized by the
elementwise sine and cosine maps `s`, `c`. -/
def transformVelocityFieldToCylindrical (s c : ℚ → ℚ) (x1 x2 : List ℚ)
    (vx1 vx2 : Arr2) : Option (Arr2 × Arr2) :=
  let x2t := tiledX2 x1 x2
  match broadcastBin (· * ·) vx1 (mapArr s x2t),
        broadcastBin (· * ·) vx2 (mapArr c x2t),
        broadcastBin (· * ·) vx1 (mapArr c x2t),
        broadcastBin (· * ·) vx2 (mapArr s x2t) with
  | some a, some b, some a2, some b2 =>
    match broadcastBin (· + ·) a b, broadcastBin (· - ·) a2 b2 with
    | some v1, some v2 => some (v1, v2)
    | _, _ => none
  | _, _, _, _ => none

/-- `Transform.transformMagneticFieldToCylindrical` (Tools.py lines 502-509):
textually the same rotation applied to `bx1`, `bx2`. -/
def transformMagneticFieldToCylindrical (s c : ℚ → ℚ) (x1 x2 : List ℚ)
    (bx1 bx2 : Arr2) : Option (Arr2 × Arr2) :=
  let x2t := tiledX2 x1 x2
  match broadcastBin (· * ·) bx1 (mapArr s x2t),
        broadcastBin (· * ·) bx2 (mapArr c x2t),
        broadcastBin (· * ·) bx1 (mapArr c x2t),
        broadcastBin (· * ·) bx2 (mapArr s x2t) with
  | some a, some b, some a2, some b2 =>
    match broadcastBin (· + ·) a b, broadcastBin (· - ·) a2 b2 with
    | some v1, some v2 => some (v1, v2)
    | _, _ => none
  | _, _, _, _ => none

/-! ## Radial resampling (Tools.py lines 543-555, simulationData.py lines
559-570)

`scipy.interpolate.interp1d(x1, row)` builds a piecewise-linear interpolant
over the tick/value pairs and raises a `ValueError` (`bounds_error` defaults
to true) when evaluated outside `[x1[0], x1[-1]]`; it also refuses axes with
fewer than two points.  Raising is modelled by `none`. -/

/-- Piecewise-linear evaluation over consecutive tick/value pairs; `none`
when the query lies left of the first tick, right of the last tick, or when
fewer than two pairs remain (SciPy requires at least two data points). -/
def interp1dPairs : List (ℚ × ℚ) → ℚ → Option ℚ
  | p0 :: p1 :: rest, t =>
    if t < p0.1 then none
    else if t ≤ p1.1 then
      some (p0.2 + (t - p0.1) * (p1.2 - p0.2) / (p1.1 - p0.1))
    else interp1dPairs (p1 :: rest) t
  | _, _ => none

/-- `scipy.interpolate.interp1d(xs, ys)(t)` (linear kind, default
`bounds_error=True`). -/
def interp1d (xs ys : List ℚ) (t : ℚ) : Option ℚ :=
  interp1dPairs (xs.zip ys) t

/-- Option-valued map over a list: the first failing element aborts the whole
computation, as a raised exception aborts the Python loop. -/
def mapOpt (f : α → Option β) : List α → Option (List β)
  | [] => some []
  | a :: l =>
    match f a, mapOpt f l with
    | some b, some l' => some (b :: l')
    | _, _ => none

/-- The mutable simulation-data object as touched by `interpolateRadialGrid`:
mesh axes `x1`, `x2`, cell widths `dx1`, `dx2`, and the `variables`
dictionary of named 2-D fields (each field a list of polar rows; the Python
attribute name `variables` is a reserved word in Lean, hence `vars`). -/
structure PlutoData where
  x1 : List ℚ
  x2 : List ℚ
  dx1 : List ℚ
  dx2 : List ℚ
  vars : List (String × List (List ℚ))

/-- `Interpolate.interpolateRadialGrid` (Tools.py lines 543-555): for every
named field, every polar row is re-interpolated from the old `x1` axis onto
`newTicks` (`f = scipy.interpolate.interp1d(x1, value[i]); f(newTicks)`),
then `data.x1` is replaced by `newTicks`.  `x2`, `dx1`, `dx2` are not
touched.  A SciPy out-of-domain error anywhere aborts the call (`none`). -/
def interpolateRadialGrid (data : PlutoData) (newTicks : List ℚ) :
    Option PlutoData :=
  match mapOpt (fun kv =>
      (mapOpt (fun row => mapOpt (interp1d data.x1 row) newTicks) kv.2).map
        (fun rows => (kv.1, rows))) data.vars with
  | some newVars =>
    some { data with vars := newVars, x1 := newTicks }
  | none => none

/-! ## Helper lemmas -/

/-- On a uniformly spaced axis the bracket search at the exact node
`start + i * d` returns `(i, i)`: the boundary nodes hit the two clamping
branches, the interior nodes hit the floor/ceil branch at an integer
quotient. -/
theorem bracketIndices_at_node (start endv d : ℚ) (n : ℕ) (i : ℤ)
    (hd : 0 < d) (hend : endv = start + ((n : ℚ) - 1) * d)
    (hi0 : 0 ≤ i) (hi1 : i < (n : ℤ)) :
    bracketIndices start endv d n (start + i * d) = (i, i) := by
  have hsub : start + (i : ℚ) * d - start = (i : ℚ) * d := by ring
  have hsub2 : endv - start = ((n : ℚ) - 1) * d := by rw [hend]; ring
  unfold bracketIndices
  rw [hsub, hsub2]
  rcases eq_or_lt_of_le hi0 with h0 | hpos
  · rw [← h0]
    simp
  · have hti : (0 : ℚ) < (i : ℚ) * d := by
      apply mul_pos _ hd
      exact_mod_cast hpos
    rw [if_neg (not_le.mpr hti)]
    rcases eq_or_lt_of_le (show i ≤ (n : ℤ) - 1 by omega) with heq | hlt
    · have hiq : (i : ℚ) = (n : ℚ) - 1 := by
        rw [heq]; push_cast; ring
      rw [if_pos (le_of_eq (by rw [hiq]))]
      rw [heq]
    · have hlt' : (i : ℚ) * d < ((n : ℚ) - 1) * d := by
        apply mul_lt_mul_of_pos_right _ hd
        have : (i : ℚ) < ((n : ℤ) - 1 : ℤ) := by exact_mod_cast hlt
        push_cast at this
        linarith
      rw [if_neg (not_le.mpr hlt')]
      rw [mul_div_cancel_right₀ _ (ne_of_gt hd), Int.floor_intCast,
        Int.ceil_intCast]

/-! ## Claims -/

/-- Claim C3: for every axis of the ion-fraction table (all three getters share
the body `bracketIndices`), the bracket search with `d = queryLog - axisStart`
returns `(0,0)` when `d ≤ 0`, returns `(N-1, N-1)` when
`d ≥ axisEnd - axisStart`, and otherwise returns
`(⌊d/spacing⌋, ⌈d/spacing⌉)`; at `axisStart` it returns `(0,0)`, at `axisEnd`
it returns `(N-1, N-1)`; and for a uniformly spaced axis and any query
strictly inside `(axisStart, axisEnd)`, `left ≤ right` and
`axisValue[left] ≤ query ≤ axisValue[right]`. -/
theorem bracket_search_clamp_spec (start endv d : ℚ) (n : ℕ) (a : ℤ → ℚ)
    (x : ℚ) (hd : 0 < d) (hn : 2 ≤ n)
    (ha : ∀ i : ℤ, 0 ≤ i → i < (n : ℤ) → a i = start + i * d)
    (hend : endv = start + ((n : ℚ) - 1) * d) :
    (∀ (col : IonFractionCollection) (q : ℚ), getIndicesForTempValue col q =
      bracketIndices col.start_temp col.end_temp col.d_temp col.n_temp q) ∧
    (∀ (col : IonFractionCollection) (q : ℚ), getIndicesForZetaValue col q =
      bracketIndices col.start_zeta col.end_zeta col.d_zeta col.n_zeta q) ∧
    (∀ (col : IonFractionCollection) (q : ℚ), getIndicesForNnValue col q =
      bracketIndices col.start_nn col.end_nn col.d_nn col.n_nn q) ∧
    (x - start ≤ 0 → bracketIndices start endv d n x = (0, 0)) ∧
    (endv - start ≤ x - start →
      bracketIndices start endv d n x = ((n : ℤ) - 1, (n : ℤ) - 1)) ∧
    (0 < x - start → x - start < endv - start →
      bracketIndices start endv d n x =
        (⌊(x - start) / d⌋, ⌈(x - start) / d⌉)) ∧
    (bracketIndices start endv d n start = (0, 0)) ∧
    (bracketIndices start endv d n endv = ((n : ℤ) - 1, (n : ℤ) - 1)) ∧
    (start < x → x < endv →
      (bracketIndices start endv d n x).1 ≤ (bracketIndices start endv d n x).2 ∧
      a (bracketIndices start endv d n x).1 ≤ x ∧
      x ≤ a (bracketIndices start endv d n x).2) := by
  have hscale : (0 : ℚ) < ((n : ℚ) - 1) * d := by
    apply mul_pos _ hd
    have : (2 : ℚ) ≤ (n : ℚ) := by exact_mod_cast hn
    linarith
  refine ⟨fun _ _ => rfl, fun _ _ => rfl, fun _ _ => rfl, ?_, ?_, ?_, ?_, ?_, ?_⟩
  · intro h
    unfold bracketIndices
    rw [if_pos h]
  · intro h
    have h0 : ¬ x - start ≤ 0 := by
      rw [hend] at h
      push_neg
      nlinarith
    unfold bracketIndices
    rw [if_neg h0, if_pos h]
  · intro h1 h2
    unfold bracketIndices
    rw [if_neg (not_le.mpr h1), if_neg (not_le.mpr h2)]
  · unfold bracketIndices
    rw [if_pos (by ring_nf; exact le_refl 0)]
  · unfold bracketIndices
    have he : endv - start = ((n : ℚ) - 1) * d := by rw [hend]; ring
    rw [if_neg (by rw [he]; exact not_le.mpr hscale), if_pos le_rfl]
  · intro hx1 hx2
    have h1 : (0 : ℚ) < x - start := by linarith
    have h2 : x - start < endv - start := by linarith
    have h2' : x - start < ((n : ℚ) - 1) * d := by
      rw [hend] at h2; linarith
    unfold bracketIndices
    rw [if_neg (not_le.mpr h1), if_neg (not_le.mpr h2)]
    have hq0 : (0 : ℚ) ≤ (x - start) / d := div_nonneg h1.le hd.le
    have hqn : (x - start) / d < (n : ℚ) - 1 := by
      rw [div_lt_iff₀ hd]
      linarith
    have hfl0 : 0 ≤ ⌊(x - start) / d⌋ := Int.floor_nonneg.mpr hq0
    have hfln : ⌊(x - start) / d⌋ < (n : ℤ) := by
      have : (⌊(x - start) / d⌋ : ℚ) ≤ (x - start) / d := Int.floor_le _
      have hq : (⌊(x - start) / d⌋ : ℚ) < (n : ℚ) - 1 := lt_of_le_of_lt this hqn
      have : ⌊(x - start) / d⌋ < (n : ℤ) - 1 := by exact_mod_cast (by push_cast; linarith : (⌊(x - start) / d⌋ : ℚ) < ((n : ℤ) - 1 : ℤ))
      omega
    have hcl0 : 0 ≤ ⌈(x - start) / d⌉ := le_trans hfl0 (Int.floor_le_ceil _)
    have hcln : ⌈(x - start) / d⌉ < (n : ℤ) := by
      have : ⌈(x - start) / d⌉ ≤ (n : ℤ) - 1 := by
        apply Int.ceil_le.mpr
        push_cast
        linarith
      omega
    refine ⟨Int.floor_le_ceil _, ?_, ?_⟩
    · rw [ha _ hfl0 hfln]
      have : (⌊(x - start) / d⌋ : ℚ) * d ≤ x - start := by
        rw [← le_div_iff₀ hd]
        exact Int.floor_le _
      linarith
    · rw [ha _ hcl0 hcln]
      have : x - start ≤ (⌈(x - start) / d⌉ : ℚ) * d := by
        rw [← div_le_iff₀ hd]
        exact Int.le_ceil _
      linarith

/-- Concrete two-points-per-axis collection used by the witnesses: axes
`0, 1` with unit spacing, cube values `i + 2j + 4k + 1`. -/
def sampleCollection : IonFractionCollection :=
  { n_temp := 2, n_zeta := 2, n_nn := 2
    d_temp := 1, d_zeta := 1, d_nn := 1
    start_temp := 0, end_temp := 1
    start_zeta := 0, end_zeta := 1
    start_nn := 0, end_nn := 1
    temp_array := fun i => (i : ℚ)
    zeta_array := fun i => (i : ℚ)
    nn_array := fun i => (i : ℚ)
    data := fun i j k => (i : ℚ) + 2 * (j : ℚ) + 4 * (k : ℚ) + 1 }

/-- The integer-cast axis `i ↦ i` used to instantiate axis hypotheses. -/
def unitAxis : ℤ → ℚ := fun i => (i : ℚ)

/-- Witness for C3: on the axis `0, 1` (start 0, end 1, spacing 1, N = 2)
the interior query `1/2` is bracketed by values on both sides. -/
theorem bracket_search_clamp_spec_witness :
    (bracketIndices 0 1 1 2 (1/2 : ℚ)).1 ≤ (bracketIndices 0 1 1 2 (1/2 : ℚ)).2 ∧
    unitAxis (bracketIndices 0 1 1 2 (1/2 : ℚ)).1 ≤ (1/2 : ℚ) ∧
    (1/2 : ℚ) ≤ unitAxis (bracketIndices 0 1 1 2 (1/2 : ℚ)).2 := by
  have h := bracket_search_clamp_spec 0 1 1 2 unitAxis (1/2) (by norm_num)
    (by norm_num) (by intro i _ _; show (i : ℚ) = 0 + i * 1; ring) (by norm_num)
  exact h.2.2.2.2.2.2.2.2 (by norm_num) (by norm_num)

/-- Claim C2: on a table whose three axes are uniformly spaced (as assumed by
the bracket search's use of a single spacing) and whose `start`/`end`/`d`
fields are consistent with the axes, the lookup evaluated exactly at any
lattice corner `(temp_array i, zeta_array j, nn_array k)` returns the stored
cube value `data i j k`: every bracket search returns a zero-width bracket at
the exact node, so all three interpolation weights collapse. -/
theorem interpolateIonFraction_corner_exact (col : IonFractionCollection)
    (hT : UniformAxis col.temp_array col.start_temp col.d_temp col.n_temp)
    (hTe : col.end_temp = col.start_temp + ((col.n_temp : ℚ) - 1) * col.d_temp)
    (hZ : UniformAxis col.zeta_array col.start_zeta col.d_zeta col.n_zeta)
    (hZe : col.end_zeta = col.start_zeta + ((col.n_zeta : ℚ) - 1) * col.d_zeta)
    (hN : UniformAxis col.nn_array col.start_nn col.d_nn col.n_nn)
    (hNe : col.end_nn = col.start_nn + ((col.n_nn : ℚ) - 1) * col.d_nn)
    (i j k : ℤ)
    (hi0 : 0 ≤ i) (hi1 : i < (col.n_temp : ℤ))
    (hj0 : 0 ≤ j) (hj1 : j < (col.n_zeta : ℤ))
    (hk0 : 0 ≤ k) (hk1 : k < (col.n_nn : ℤ)) :
    interpolateIonFractionLog col (col.temp_array i) (col.zeta_array j)
      (col.nn_array k) = col.data i j k := by
  obtain ⟨hdT, -, haT⟩ := hT
  obtain ⟨hdZ, -, haZ⟩ := hZ
  obtain ⟨hdN, -, haN⟩ := hN
  have bT : getIndicesForTempValue col (col.temp_array i) = (i, i) := by
    rw [haT i hi0 hi1]
    exact bracketIndices_at_node _ _ _ _ _ hdT hTe hi0 hi1
  have bZ : getIndicesForZetaValue col (col.zeta_array j) = (j, j) := by
    rw [haZ j hj0 hj1]
    exact bracketIndices_at_node _ _ _ _ _ hdZ hZe hj0 hj1
  have bN : getIndicesForNnValue col (col.nn_array k) = (k, k) := by
    rw [haN k hk0 hk1]
    exact bracketIndices_at_node _ _ _ _ _ hdN hNe hk0 hk1
  have wT : tempWeight col (col.temp_array i) = 0 := by
    simp [tempWeight, bT]
  have wZ : zetaWeight col (col.zeta_array j) = 0 := by
    simp [zetaWeight, bZ]
  have wN : nnWeight col (col.nn_array k) = 0 := by
    simp [nnWeight, bN]
  simp only [interpolateIonFractionLog, bT, bZ, bN, wT, wZ, wN]
  ring

/-- Witness for C2: the corner `(1, 0, 1)` of the concrete two-point-per-axis
collection returns its stored cube value. -/
theorem interpolateIonFraction_corner_exact_witness :
    interpolateIonFractionLog sampleCollection (sampleCollection.temp_array 1)
      (sampleCollection.zeta_array 0) (sampleCollection.nn_array 1)
      = sampleCollection.data 1 0 1 := by
  have hu : ∀ s : ℚ, s = 0 →
      UniformAxis (fun i : ℤ => (i : ℚ)) s 1 2 := by
    intro s hs
    refine ⟨by norm_num, by norm_num, ?_⟩
    intro i _ _
    rw [hs]
    ring
  exact interpolateIonFraction_corner_exact sampleCollection
    (hu 0 rfl) (by norm_num [sampleCollection])
    (hu 0 rfl) (by norm_num [sampleCollection])
    (hu 0 rfl) (by norm_num [sampleCollection])
    1 0 1 (by norm_num) (by norm_num [sampleCollection])
    (by norm_num) (by norm_num [sampleCollection])
    (by norm_num) (by norm_num [sampleCollection])

/-- Claim C4: whenever a bracket search returns a zero-width bracket
(`left == right`) on an axis, the fractional weight along that axis is `0`
(the `x0 == x1` guard, not a division), and the lookup collapses to the
bilinear interpolation over that axis's single bracketing plane. -/
theorem interpolateIonFraction_degenerate_axis (col : IonFractionCollection)
    (x y z : ℚ) :
    ((getIndicesForTempValue col x).1 = (getIndicesForTempValue col x).2 →
      tempWeight col x = 0 ∧
      interpolateIonFractionLog col x y z = lookupPlaneTemp col x y z) ∧
    ((getIndicesForZetaValue col y).1 = (getIndicesForZetaValue col y).2 →
      zetaWeight col y = 0 ∧
      interpolateIonFractionLog col x y z = lookupPlaneZeta col x y z) ∧
    ((getIndicesForNnValue col z).1 = (getIndicesForNnValue col z).2 →
      nnWeight col z = 0 ∧
      interpolateIonFractionLog col x y z = lookupPlaneNn col x y z) := by
  refine ⟨fun h => ?_, fun h => ?_, fun h => ?_⟩
  · have hx : col.temp_array (getIndicesForTempValue col x).1 =
        col.temp_array (getIndicesForTempValue col x).2 := by rw [h]
    have w : tempWeight col x = 0 := by
      simp only [tempWeight]
      rw [if_pos hx]
    refine ⟨w, ?_⟩
    simp only [interpolateIonFractionLog, lookupPlaneTemp, w]
    rw [← h]
    ring
  · have hy : col.zeta_array (getIndicesForZetaValue col y).1 =
        col.zeta_array (getIndicesForZetaValue col y).2 := by rw [h]
    have w : zetaWeight col y = 0 := by
      simp only [zetaWeight]
      rw [if_pos hy]
    refine ⟨w, ?_⟩
    simp only [interpolateIonFractionLog, lookupPlaneZeta, w]
    rw [← h]
    ring
  · have hz : col.nn_array (getIndicesForNnValue col z).1 =
        col.nn_array (getIndicesForNnValue col z).2 := by rw [h]
    have w : nnWeight col z = 0 := by
      simp only [nnWeight]
      rw [if_pos hz]
    refine ⟨w, ?_⟩
    simp only [interpolateIonFractionLog, lookupPlaneNn, w]
    rw [← h]
    ring

/-- Witness for C4: the below-range query `-1` on the temperature axis of the
concrete collection clamps to the zero-width bracket `(0, 0)`, its weight is
`0`, and the lookup equals the single-plane interpolation. -/
theorem interpolateIonFraction_degenerate_axis_witness :
    (getIndicesForTempValue sampleCollection (-1)).1 =
      (getIndicesForTempValue sampleCollection (-1)).2 ∧
    tempWeight sampleCollection (-1) = 0 ∧
    interpolateIonFractionLog sampleCollection (-1) (1/2) (1/2)
      = lookupPlaneTemp sampleCollection (-1) (1/2) (1/2) := by
  have h0 : getIndicesForTempValue sampleCollection (-1) = (0, 0) := by
    show bracketIndices 0 1 1 2 (-1) = (0, 0)
    unfold bracketIndices
    norm_num
  have h : (getIndicesForTempValue sampleCollection (-1)).1 =
      (getIndicesForTempValue sampleCollection (-1)).2 := by rw [h0]
  have hc := (interpolateIonFraction_degenerate_axis sampleCollection
    (-1) (1/2) (1/2)).1 h
  exact ⟨h, hc.1, hc.2⟩

/-- Claim C5: `singlePointInterpolation` and `interpolatePoint2D` map the
physical point `(x, y)` to the fractional index pair with the Y (vertical)
index `(y - y0) * ySamples / (y1 - y0)` placed first (the row coordinate)
and the X index `(x - x0) * xSamples / (x1 - x0)` second (the column
coordinate), and evaluate the grid by order-1 bilinear `map_coordinates`
there. -/
theorem pointSample_index_convention (t : ℚ) (p : ℚ × ℚ)
    (vx1 vx2 data : Arr2) (xr yr : Range1) :
    singlePointInterpolation t p vx1 vx2 xr yr =
      (mapCoordinates1 vx1 ((p.2 - yr.lo) * (yr.n : ℚ) / (yr.hi - yr.lo))
        ((p.1 - xr.lo) * (xr.n : ℚ) / (xr.hi - xr.lo)),
       mapCoordinates1 vx2 ((p.2 - yr.lo) * (yr.n : ℚ) / (yr.hi - yr.lo))
        ((p.1 - xr.lo) * (xr.n : ℚ) / (xr.hi - xr.lo))) ∧
    interpolatePoint2D xr yr data p =
      mapCoordinates1 data ((p.2 - yr.lo) * (yr.n : ℚ) / (yr.hi - yr.lo))
        ((p.1 - xr.lo) * (xr.n : ℚ) / (xr.hi - xr.lo)) :=
  ⟨rfl, rfl⟩

/-- Claim C6, amended: an out-of-range fractional index is *not* clamped to the
nearest edge sample; `map_coordinates`' default `mode='constant', cval=0.0`
returns the constant fill value `0` for every query whose fractional index
leaves `[0, rows-1] × [0, cols-1]`. -/
theorem pointSample_out_of_range_fill (xr yr : Range1) (data : Arr2)
    (p : ℚ × ℚ)
    (h : (p.2 - yr.lo) * (yr.n : ℚ) / (yr.hi - yr.lo) < 0 ∨
      ((data.rows : ℚ) - 1) < (p.2 - yr.lo) * (yr.n : ℚ) / (yr.hi - yr.lo) ∨
      (p.1 - xr.lo) * (xr.n : ℚ) / (xr.hi - xr.lo) < 0 ∨
      ((data.cols : ℚ) - 1) < (p.1 - xr.lo) * (xr.n : ℚ) / (xr.hi - xr.lo)) :
    interpolatePoint2D xr yr data p = 0 := by
  simp only [interpolatePoint2D, mapCoordinates1]
  rw [if_pos h]

/-- The constant-5 2×2 grid used to refute edge clamping: every sample is 5,
so any edge-clamped read would return 5. -/
def constFiveGrid : Arr2 :=
  ⟨2, 2, fun _ _ => 5⟩

/-- Witness for the amended C6: the point `(-1, 0)` on the unit ranges has
X fractional index `-2 < 0` and samples to the fill value `0`. -/
theorem pointSample_out_of_range_fill_witness :
    interpolatePoint2D ⟨0, 1, 2⟩ ⟨0, 1, 2⟩ constFiveGrid (-1, 0) = 0 :=
  pointSample_out_of_range_fill ⟨0, 1, 2⟩ ⟨0, 1, 2⟩ constFiveGrid (-1, 0)
    (Or.inr (Or.inr (Or.inl (by norm_num))))

/-- Counterexample to C6 as stated: on the all-5 grid the nearest edge sample
of any query is 5, yet the out-of-range query `(-1, 0)` returns 0, so the
sampler does not clamp to the nearest edge. -/
theorem pointSample_edge_clamp_cex :
    interpolatePoint2D ⟨0, 1, 2⟩ ⟨0, 1, 2⟩ constFiveGrid (-1, 0) = 0 ∧
    constFiveGrid.val 0 0 = 5 ∧ constFiveGrid.val 0 1 = 5 ∧
    constFiveGrid.val 1 0 = 5 ∧ constFiveGrid.val 1 1 = 5 := by
  refine ⟨?_, rfl, rfl, rfl, rfl⟩
  have hc : ((0 : ℚ) - 0) * ((2 : ℕ) : ℚ) / (1 - 0) < 0 ∨
      ((constFiveGrid.rows : ℚ) - 1) < ((0 : ℚ) - 0) * ((2 : ℕ) : ℚ) / (1 - 0) ∨
      ((-1 : ℚ) - 0) * ((2 : ℕ) : ℚ) / (1 - 0) < 0 ∨
      ((constFiveGrid.cols : ℚ) - 1) < ((-1 : ℚ) - 0) * ((2 : ℕ) : ℚ) / (1 - 0) := by
    refine Or.inr (Or.inr (Or.inl ?_))
    norm_num
  simp only [interpolatePoint2D, mapCoordinates1]
  rw [if_pos hc]

/-- The constant-2 2×2 speed grid: the sampled speed is 2 everywhere inside
the index range. -/
def constTwoGrid : Arr2 :=
  ⟨2, 2, fun _ _ => 2⟩

/-- Claim C7 (the step-cap half is a code bug, see the non-termination
conjunct): one loop iteration of `computeStreamline` checks the sampled speed
at the current position against `limit`, exits returning the position and the
traced path when the speed is not above `limit`, and otherwise advances the
solver one step and appends the accepted position; and because the Python
`while` loop has no step bound whatsoever, on the constant speed-2 field with
`limit = 1` and a solver step that stays at the seed the loop never
terminates: no amount of fuel makes it return. -/
theorem computeStreamline_stop_semantics :
    (∀ (stepf : ℚ × ℚ → ℚ × ℚ) (vabs : Arr2) (xr yr : Range1) (limit : ℚ)
        (n : ℕ) (p : ℚ × ℚ) (acc : List (ℚ × ℚ)),
      computeStreamlineRun stepf vabs xr yr limit (n + 1) p acc =
        if limit < interpolatePoint2D xr yr vabs p then
          computeStreamlineRun stepf vabs xr yr limit n (stepf p)
            (acc ++ [stepf p])
        else some (p, acc)) ∧
    (∀ (n : ℕ) (acc : List (ℚ × ℚ)),
      computeStreamlineRun id constTwoGrid ⟨0, 1, 2⟩ ⟨0, 1, 2⟩ 1 n (0, 0) acc
        = none) := by
  have hval : interpolatePoint2D ⟨0, 1, 2⟩ ⟨0, 1, 2⟩ constTwoGrid (0, 0) = 2 := by
    simp only [interpolatePoint2D, mapCoordinates1]
    rw [if_neg]
    · norm_num [constTwoGrid]
    · norm_num [constTwoGrid]
  refine ⟨fun _ _ _ _ _ _ _ _ => rfl, ?_⟩
  intro n
  induction n with
  | zero => intro _; rfl
  | succ m ih =>
    intro acc
    have hred : computeStreamlineRun id constTwoGrid ⟨0, 1, 2⟩ ⟨0, 1, 2⟩ 1
        (m + 1) (0, 0) acc =
        if (1 : ℚ) < interpolatePoint2D ⟨0, 1, 2⟩ ⟨0, 1, 2⟩ constTwoGrid (0, 0)
        then computeStreamlineRun id constTwoGrid ⟨0, 1, 2⟩ ⟨0, 1, 2⟩ 1 m
          (id (0, 0)) (acc ++ [id (0, 0)])
        else some ((0, 0), acc) := rfl
    rw [hred, hval, if_pos (by norm_num : (1 : ℚ) < 2)]
    exact ih (acc ++ [id (0, 0)])

/-- Claim C1, amended (true of the PlutoTools `Interpolate` version): every cell
of the value array produced by `Interpolate.interpolateToUniformGrid` whose
Cartesian coordinates satisfy `X² + Y² < 1` (equivalently
`sqrt(X² + Y²) < 1`) is not-a-number after the call, regardless of the
resampled field, i.e. regardless of the scattered-interpolation output `g`. -/
theorem interpolateToUniformGrid_inner_mask (g : ℕ → ℕ → Option ℚ)
    (xr yr : Range1) (i j : ℕ)
    (h : (linspace xr j) ^ 2 + (linspace yr i) ^ 2 < 1) :
    interpolateToUniformGrid g xr yr i j = none := by
  simp only [interpolateToUniformGrid]
  rw [if_pos h]

/-- Witness for the amended C1: the origin cell of a grid over `[0,1]×[0,1]`
lies inside the unit circle and is masked, whatever `griddata` produced
there. -/
theorem interpolateToUniformGrid_inner_mask_witness :
    (linspace ⟨0, 1, 2⟩ 0) ^ 2 + (linspace ⟨0, 1, 2⟩ 0) ^ 2 < 1 ∧
    interpolateToUniformGrid (fun _ _ => some 3) ⟨0, 1, 2⟩ ⟨0, 1, 2⟩ 0 0 = none :=
  ⟨by norm_num [linspace],
   interpolateToUniformGrid_inner_mask (fun _ _ => some 3) ⟨0, 1, 2⟩ ⟨0, 1, 2⟩
     0 0 (by norm_num [linspace])⟩

/-- Counterexample to C1 as stated: the claim also cites
`simulationData.py`'s `Tools.interpolateToUniformGrid`, which has no masking
step, so a cell with `X² + Y² < 1` keeps the raw scattered-interpolation
value (`7` here) instead of not-a-number. -/
theorem interpolateToUniformGrid_simData_cex :
    (linspace ⟨0, 1, 2⟩ 0) ^ 2 + (linspace ⟨0, 1, 2⟩ 0) ^ 2 < 1 ∧
    interpolateToUniformGridSimData (fun _ _ => some 7) ⟨0, 1, 2⟩ ⟨0, 1, 2⟩ 0 0
      = some 7 :=
  ⟨by norm_num [linspace], rfl⟩

/-! ### Broadcasting lemmas for C9 -/

theorem bcastDim_none_of (m n : ℕ) (h : ¬ BcastOk m n) : bcastDim m n = none := by
  unfold bcastDim BcastOk at *
  push_neg at h
  rw [if_neg h.1, if_neg h.2.1, if_neg h.2.2]

theorem broadcastBin_none (f : ℚ → ℚ → ℚ) (a b : Arr2)
    (h : ¬ BcastOk a.rows b.rows ∨ ¬ BcastOk a.cols b.cols) :
    broadcastBin f a b = none := by
  unfold broadcastBin
  rcases h with h | h
  · rw [bcastDim_none_of _ _ h]
  · rw [bcastDim_none_of _ _ h]
    cases bcastDim a.rows b.rows <;> rfl

theorem broadcastBin_stretch (f : ℚ → ℚ → ℚ) (a b : Arr2)
    (h1 : a.rows = 1 ∨ a.rows = b.rows) (h2 : a.cols = 1 ∨ a.cols = b.cols) :
    ∃ v, broadcastBin f a b = some v ∧ v.rows = b.rows ∧ v.cols = b.cols := by
  have e1 : bcastDim a.rows b.rows = some b.rows := by
    unfold bcastDim
    by_cases he : a.rows = b.rows
    · rw [if_pos he, he]
    · rcases h1 with h | h
      · rw [if_neg he, if_pos h]
      · exact absurd h he
  have e2 : bcastDim a.cols b.cols = some b.cols := by
    unfold bcastDim
    by_cases he : a.cols = b.cols
    · rw [if_pos he, he]
    · rcases h2 with h | h
      · rw [if_neg he, if_pos h]
      · exact absurd h he
  unfold broadcastBin
  rw [e1, e2]
  exact ⟨_, rfl, rfl, rfl⟩

/-- Claim C9, amended: the rotation raises a broadcasting error exactly for
field shapes that are not NumPy-broadcast-compatible with the mesh shape
`(len(x2), len(x1))`; a shape-mismatched field whose dimensions are each
either 1 or the mesh's is *silently broadcast* and produces a result, so
"mismatched shape" alone is not a fatal precondition violation.  The
magnetic-field transform is the same computation. -/
theorem transformVelocity_broadcast_spec (s c : ℚ → ℚ) (x1 x2 : List ℚ)
    (vx1 vx2 : Arr2) :
    (transformMagneticFieldToCylindrical s c x1 x2 vx1 vx2 =
      transformVelocityFieldToCylindrical s c x1 x2 vx1 vx2) ∧
    (¬ BcastOk vx1.rows x2.length ∨ ¬ BcastOk vx1.cols x1.length →
      transformVelocityFieldToCylindrical s c x1 x2 vx1 vx2 = none) ∧
    (¬ BcastOk vx2.rows x2.length ∨ ¬ BcastOk vx2.cols x1.length →
      transformVelocityFieldToCylindrical s c x1 x2 vx1 vx2 = none) ∧
    ((vx1.rows = 1 ∨ vx1.rows = x2.length) →
     (vx1.cols = 1 ∨ vx1.cols = x1.length) →
     (vx2.rows = 1 ∨ vx2.rows = x2.length) →
     (vx2.cols = 1 ∨ vx2.cols = x1.length) →
      (transformVelocityFieldToCylindrical s c x1 x2 vx1 vx2).isSome = true) := by
  refine ⟨rfl, ?_, ?_, ?_⟩
  · intro h
    have h1 : broadcastBin (· * ·) vx1 (mapArr s (tiledX2 x1 x2)) = none :=
      broadcastBin_none _ _ _ h
    have h2 : broadcastBin (· * ·) vx1 (mapArr c (tiledX2 x1 x2)) = none :=
      broadcastBin_none _ _ _ h
    simp only [transformVelocityFieldToCylindrical, h1, h2]
  · intro h
    have h1 : broadcastBin (· * ·) vx2 (mapArr c (tiledX2 x1 x2)) = none :=
      broadcastBin_none _ _ _ h
    have h2 : broadcastBin (· * ·) vx2 (mapArr s (tiledX2 x1 x2)) = none :=
      broadcastBin_none _ _ _ h
    simp only [transformVelocityFieldToCylindrical, h1, h2]
    cases broadcastBin (· * ·) vx1 (mapArr s (tiledX2 x1 x2)) <;>
      cases broadcastBin (· * ·) vx1 (mapArr c (tiledX2 x1 x2)) <;> rfl
  · intro h1 h2 h3 h4
    obtain ⟨A, hA, hAr, hAc⟩ :=
      broadcastBin_stretch (· * ·) vx1 (mapArr s (tiledX2 x1 x2)) h1 h2
    obtain ⟨B, hB, hBr, hBc⟩ :=
      broadcastBin_stretch (· * ·) vx2 (mapArr c (tiledX2 x1 x2)) h3 h4
    obtain ⟨A2, hA2, hA2r, hA2c⟩ :=
      broadcastBin_stretch (· * ·) vx1 (mapArr c (tiledX2 x1 x2)) h1 h2
    obtain ⟨B2, hB2, hB2r, hB2c⟩ :=
      broadcastBin_stretch (· * ·) vx2 (mapArr s (tiledX2 x1 x2)) h3 h4
    obtain ⟨V1, hV1, -, -⟩ := broadcastBin_stretch (· + ·) A B
      (Or.inr (by rw [hAr, hBr]; rfl)) (Or.inr (by rw [hAc, hBc]; rfl))
    obtain ⟨V2, hV2, -, -⟩ := broadcastBin_stretch (· - ·) A2 B2
      (Or.inr (by rw [hA2r, hB2r]; rfl)) (Or.inr (by rw [hA2c, hB2c]; rfl))
    simp only [transformVelocityFieldToCylindrical, hA, hB, hA2, hB2, hV1, hV2]
    rfl

/-- A 1×1 constant field, shape-mismatched with any taller mesh but
broadcast-compatible with every mesh. -/
def oneCellGrid : Arr2 :=
  ⟨1, 1, fun _ _ => 1⟩

/-- Witness for the amended C9: on the mesh `x1 = [1]`, `x2 = [0, 1]` (mesh
shape `(2, 1)`) the 1×1 fields broadcast and the transform succeeds. -/
theorem transformVelocity_broadcast_spec_witness :
    (transformVelocityFieldToCylindrical id id [1] [0, 1] oneCellGrid
      oneCellGrid).isSome = true :=
  (transformVelocity_broadcast_spec id id [1] [0, 1] oneCellGrid
    oneCellGrid).2.2.2 (Or.inl rfl) (Or.inr rfl) (Or.inl rfl) (Or.inr rfl)

/-- Counterexample to C9 as stated: the 1×1 input pair does not share the
mesh shape `(2, 1)`, yet the rotation silently broadcasts it and returns a
result rather than failing. -/
theorem transformVelocity_silent_broadcast_cex :
    (transformVelocityFieldToCylindrical id id [1] [0, 1] oneCellGrid
      oneCellGrid).isSome = true ∧
    ¬ (oneCellGrid.rows = [(0 : ℚ), 1].length ∧
       oneCellGrid.cols = [(1 : ℚ)].length) := by
  constructor
  · rfl
  · intro hco
    simp [oneCellGrid] at hco

/-! ### List and interp1d lemmas for C8 / C10 -/

theorem pair_le_getLast! (p : ℚ × ℚ) (L : List (ℚ × ℚ))
    (hch : List.Chain' (fun u v : ℚ × ℚ => u.1 < v.1) (p :: L)) :
    p.1 ≤ ((p :: L).getLast!).1 := by
  induction L generalizing p with
  | nil => exact le_rfl
  | cons q T ih =>
    have h1 : p.1 < q.1 := (List.chain'_cons.mp hch).1
    exact le_trans h1.le (ih q (List.chain'_cons.mp hch).2)

theorem interp1dPairs_none_lo (p0 : ℚ × ℚ) (L : List (ℚ × ℚ)) (t : ℚ)
    (h : t < p0.1) : interp1dPairs (p0 :: L) t = none := by
  cases L with
  | nil => rfl
  | cons p1 rest =>
    unfold interp1dPairs
    rw [if_pos h]

theorem interp1dPairs_none_hi : ∀ (L : List (ℚ × ℚ)) (t : ℚ),
    List.Chain' (fun u v : ℚ × ℚ => u.1 < v.1) L →
    (L.getLast!).1 < t → interp1dPairs L t = none := by
  intro L
  induction L with
  | nil => intro t _ _; rfl
  | cons p0 T ih =>
    cases T with
    | nil => intro t _ _; rfl
    | cons p1 rest =>
      intro t hch hlast
      have hp1 : p1.1 < t := by
        have h2 : p1.1 ≤ ((p1 :: rest).getLast!).1 :=
          pair_le_getLast! p1 rest (List.chain'_cons.mp hch).2
        exact lt_of_le_of_lt h2 hlast
      by_cases h0 : t < p0.1
      · unfold interp1dPairs
        rw [if_pos h0]
      · unfold interp1dPairs
        rw [if_neg h0, if_neg (not_le.mpr hp1)]
        exact ih t (List.chain'_cons.mp hch).2 hlast

theorem interp1dPairs_isSome : ∀ (L : List (ℚ × ℚ)) (t : ℚ),
    2 ≤ L.length → List.Chain' (fun u v : ℚ × ℚ => u.1 < v.1) L →
    (L.head!).1 ≤ t → t ≤ (L.getLast!).1 →
    (interp1dPairs L t).isSome = true := by
  intro L
  induction L with
  | nil => intro t h _ _ _; simp at h
  | cons p0 T ih =>
    cases T with
    | nil => intro t h _ _ _; simp at h
    | cons p1 rest =>
      intro t _ hch h0 h1
      simp only [List.head!_cons] at h0
      unfold interp1dPairs
      rw [if_neg (not_lt.mpr h0)]
      by_cases hle : t ≤ p1.1
      · rw [if_pos hle]
        rfl
      · rw [if_neg hle]
        cases rest with
        | nil => exact absurd h1 hle
        | cons r rest' =>
          exact ih t (by simp) (List.chain'_cons.mp hch).2
            (le_of_lt (not_le.mp hle)) h1

theorem zip_getLast!_fst : ∀ (xs ys : List ℚ), xs ≠ [] →
    xs.length = ys.length → ((xs.zip ys).getLast!).1 = xs.getLast! := by
  intro xs
  induction xs with
  | nil => intro ys h; exact absurd rfl h
  | cons x xt ih =>
    intro ys _ hlen
    cases ys with
    | nil => simp at hlen
    | cons y yt =>
      cases xt with
      | nil =>
        cases yt with
        | nil => rfl
        | cons _ _ => simp at hlen
      | cons x2 xt2 =>
        cases yt with
        | nil => simp at hlen
        | cons y2 yt2 =>
          exact ih (y2 :: yt2) (by simp) (by simpa using hlen)

theorem zip_chain'_fst (xs ys : List ℚ) (hlen : xs.length ≤ ys.length)
    (hch : List.Chain' (· < ·) xs) :
    List.Chain' (fun u v : ℚ × ℚ => u.1 < v.1) (xs.zip ys) := by
  have hmap : (xs.zip ys).map Prod.fst = xs := List.map_fst_zip _ _ hlen
  rw [← hmap] at hch
  exact (List.chain'_map Prod.fst).mp hch

theorem mapOpt_eq_none {f : α → Option β} {l : List α} {a : α}
    (ha : a ∈ l) (hfa : f a = none) : mapOpt f l = none := by
  induction l with
  | nil => cases ha
  | cons b t ih =>
    rcases List.mem_cons.mp ha with rfl | ht
    · unfold mapOpt
      rw [hfa]
    · unfold mapOpt
      rw [ih ht]
      cases f b <;> rfl

theorem mapOpt_isSome_of {f : α → Option β} {l : List α}
    (h : ∀ a ∈ l, (f a).isSome = true) : (mapOpt f l).isSome = true := by
  induction l with
  | nil => rfl
  | cons a t ih =>
    obtain ⟨b, hb⟩ := Option.isSome_iff_exists.mp (h a (List.mem_cons_self a t))
    obtain ⟨t', ht'⟩ := Option.isSome_iff_exists.mp
      (ih fun x hx => h x (List.mem_cons_of_mem _ hx))
    unfold mapOpt
    rw [hb, ht']
    rfl

theorem mapOpt_some_forall {f : α → Option β} :
    ∀ {l : List α} {l' : List β}, mapOpt f l = some l' →
    List.Forall₂ (fun a b => f a = some b) l l' := by
  intro l
  induction l with
  | nil =>
    intro l' h
    obtain rfl : ([] : List β) = l' := by
      simpa [mapOpt] using h
    exact List.Forall₂.nil
  | cons a t ih =>
    intro l' h
    unfold mapOpt at h
    cases hfa : f a with
    | none =>
      rw [hfa] at h
      cases h2 : mapOpt f t <;> rw [h2] at h <;> cases h
    | some b =>
      rw [hfa] at h
      cases h2 : mapOpt f t with
      | none => rw [h2] at h; cases h
      | some t' =>
        rw [h2] at h
        obtain rfl : b :: t' = l' := by
          simpa using h
        exact List.Forall₂.cons hfa (ih h2)

theorem forall₂_mem_right {R : α → β → Prop} :
    ∀ {l : List α} {l' : List β}, List.Forall₂ R l l' →
    ∀ b ∈ l', ∃ a ∈ l, R a b := by
  intro l l' h
  induction h with
  | nil => intro b hb; cases hb
  | cons hr _ ih =>
    intro b hb
    rcases List.mem_cons.mp hb with rfl | hb'
    · exact ⟨_, List.mem_cons_self _ _, hr⟩
    · obtain ⟨a, ha, har⟩ := ih b hb'
      exact ⟨a, List.mem_cons_of_mem _ ha, har⟩

theorem zip_head!_fst (xs ys : List ℚ) (hne : xs ≠ [])
    (hlen : xs.length = ys.length) : ((xs.zip ys).head!).1 = xs.head! := by
  cases xs with
  | nil => exact absurd rfl hne
  | cons x xt =>
    cases ys with
    | nil => simp at hlen
    | cons y yt => rfl

/-- Claim C8: over a strictly increasing radial axis of at least two points and
fields whose rows match the axis length, `interpolateRadialGrid` fails with
the SciPy out-of-domain error whenever some new tick lies outside
`[x1[0], x1[-1]]` (and at least one field has a row to interpolate), and when
all ticks lie inside it succeeds, replacing `x1` by the new ticks and every
field by a same-name array with the same polar extent and radial extent
`len(newRadialTicks)`. -/
theorem interpolateRadialGrid_domain_spec (data : PlutoData)
    (newTicks : List ℚ) (hx : List.Chain' (· < ·) data.x1)
    (hlen2 : 2 ≤ data.x1.length)
    (hrows : ∀ kv ∈ data.vars, ∀ row ∈ kv.2, row.length = data.x1.length) :
    ((∃ t ∈ newTicks, t < data.x1.head! ∨ data.x1.getLast! < t) →
      (∃ kv ∈ data.vars, kv.2 ≠ []) →
      interpolateRadialGrid data newTicks = none) ∧
    ((∀ t ∈ newTicks, data.x1.head! ≤ t ∧ t ≤ data.x1.getLast!) →
      ∃ d, interpolateRadialGrid data newTicks = some d ∧
        d.x1 = newTicks ∧
        List.Forall₂ (fun kv kv' : String × List (List ℚ) =>
          kv'.1 = kv.1 ∧ kv'.2.length = kv.2.length ∧
          ∀ row' ∈ kv'.2, row'.length = newTicks.length)
          data.vars d.vars) := by
  have hxne : data.x1 ≠ [] := by
    intro h
    rw [h] at hlen2
    simp at hlen2
  constructor
  · rintro ⟨t, ht, hout⟩ ⟨kv, hkv, hne⟩
    obtain ⟨row, hrow⟩ : ∃ row, row ∈ kv.2 := by
      cases h2 : kv.2 with
      | nil => exact absurd h2 hne
      | cons r rs => exact ⟨r, h2 ▸ List.mem_cons_self r rs⟩
    have hrl := hrows kv hkv row hrow
    have hnone1 : interp1d data.x1 row t = none := by
      unfold interp1d
      rcases hout with hlo | hhi
      · obtain ⟨x0, xs, hx1⟩ := List.exists_cons_of_ne_nil hxne
        obtain ⟨r0, rs, hrw⟩ := List.exists_cons_of_ne_nil (l := row) (by
          intro h
          rw [h, hx1] at hrl
          simp at hrl)
        rw [hx1, hrw]
        apply interp1dPairs_none_lo
        rw [hx1] at hlo
        simpa using hlo
      · apply interp1dPairs_none_hi
        · exact zip_chain'_fst data.x1 row (le_of_eq hrl.symm) hx
        · rw [zip_getLast!_fst data.x1 row hxne hrl.symm]
          exact hhi
    have h2 : mapOpt (interp1d data.x1 row) newTicks = none :=
      mapOpt_eq_none ht hnone1
    have h3 : mapOpt (fun row => mapOpt (interp1d data.x1 row) newTicks) kv.2
        = none := mapOpt_eq_none hrow h2
    have h5 : mapOpt (fun kv : String × List (List ℚ) =>
        (mapOpt (fun row => mapOpt (interp1d data.x1 row) newTicks) kv.2).map
          (fun rows => (kv.1, rows))) data.vars = none := by
      apply mapOpt_eq_none hkv
      simp only [h3, Option.map_none']
    unfold interpolateRadialGrid
    rw [h5]
  · intro hin
    have hsome : ∀ kv ∈ data.vars,
        ((mapOpt (fun row => mapOpt (interp1d data.x1 row) newTicks) kv.2).map
          (fun rows => (kv.1, rows))).isSome = true := by
      intro kv hkv
      have hs : (mapOpt (fun row => mapOpt (interp1d data.x1 row) newTicks)
          kv.2).isSome = true := by
        apply mapOpt_isSome_of
        intro row hrow
        apply mapOpt_isSome_of
        intro t ht
        unfold interp1d
        apply interp1dPairs_isSome
        · rw [List.length_zip, hrows kv hkv row hrow, min_self]
          exact hlen2
        · exact zip_chain'_fst data.x1 row
            (le_of_eq (hrows kv hkv row hrow).symm) hx
        · rw [zip_head!_fst data.x1 row hxne (hrows kv hkv row hrow).symm]
          exact (hin t ht).1
        · rw [zip_getLast!_fst data.x1 row hxne (hrows kv hkv row hrow).symm]
          exact (hin t ht).2
      obtain ⟨v, hv⟩ := Option.isSome_iff_exists.mp hs
      rw [hv]
      rfl
    obtain ⟨newVars, hnv⟩ := Option.isSome_iff_exists.mp
      (mapOpt_isSome_of hsome)
    refine ⟨{ data with vars := newVars, x1 := newTicks }, ?_, rfl, ?_⟩
    · unfold interpolateRadialGrid
      rw [hnv]
    · refine List.Forall₂.imp ?_ (mapOpt_some_forall hnv)
      intro kv kv' hkv'
      obtain ⟨rows', hrows', hkv'eq⟩ := Option.map_eq_some'.mp hkv'
      have h1 : kv'.1 = kv.1 := by rw [← hkv'eq]
      have h2 : kv'.2 = rows' := by rw [← hkv'eq]
      refine ⟨h1, ?_, ?_⟩
      · rw [h2]
        exact ((mapOpt_some_forall hrows').length_eq).symm
      · intro row' hrow'
        rw [h2] at hrow'
        obtain ⟨row, -, hrel⟩ :=
          forall₂_mem_right (mapOpt_some_forall hrows') row' hrow'
        exact ((mapOpt_some_forall hrel).length_eq).symm

/-- Concrete simulation data used by the C8 and C10 witnesses: radial axis
`[0, 1]`, one polar cell, one field with a single row. -/
def sampleData : PlutoData :=
  { x1 := [0, 1], x2 := [5], dx1 := [1, 1], dx2 := [2]
    vars := [("rho", [[3, 4]])] }

/-- Witness for C8: on the concrete data, the out-of-domain tick `5` makes
the resample fail, and the in-domain tick `0` succeeds with the reshaped
field. -/
theorem interpolateRadialGrid_domain_spec_witness :
    interpolateRadialGrid sampleData [5] = none ∧
    ∃ d, interpolateRadialGrid sampleData [0] = some d ∧ d.x1 = [0] ∧
      List.Forall₂ (fun kv kv' : String × List (List ℚ) =>
        kv'.1 = kv.1 ∧ kv'.2.length = kv.2.length ∧
        ∀ row' ∈ kv'.2, row'.length = ([(0 : ℚ)]).length)
        sampleData.vars d.vars := by
  have hx : List.Chain' (· < ·) sampleData.x1 := by
    show List.Chain' (· < ·) [(0 : ℚ), 1]
    rw [List.chain'_cons]
    exact ⟨by norm_num, List.chain'_singleton 1⟩
  have hlen : 2 ≤ sampleData.x1.length := by
    show 2 ≤ ([(0 : ℚ), 1]).length
    simp
  have hrows : ∀ kv ∈ sampleData.vars, ∀ row ∈ kv.2,
      row.length = sampleData.x1.length := by
    intro kv hkv row hrow
    simp only [sampleData] at hkv
    rcases List.mem_singleton.mp hkv with rfl
    simp only at hrow
    rcases List.mem_singleton.mp hrow with rfl
    rfl
  constructor
  · exact (interpolateRadialGrid_domain_spec sampleData [5] hx hlen hrows).1
      ⟨5, List.mem_singleton.mpr rfl, Or.inr (by show (1 : ℚ) < 5; norm_num)⟩
      ⟨("rho", [[3, 4]]), by simp [sampleData], by simp⟩
  · exact (interpolateRadialGrid_domain_spec sampleData [0] hx hlen hrows).2
      (by
        intro t ht
        rcases List.mem_singleton.mp ht with rfl
        exact ⟨by show (0 : ℚ) ≤ 0; norm_num, by show (0 : ℚ) ≤ 1; norm_num⟩)

/-- Claim C10: a successful `interpolateRadialGrid` changes only the fields
dictionary and `x1` (which becomes `newTicks`); `x2`, `dx1` and `dx2` are
left unchanged, so whenever `len(newRadialTicks)` differs from the old
`len(x1)` the mesh afterwards violates the width invariant
`len(dx1) == len(x1)`. -/
theorem interpolateRadialGrid_frame_effect (data : PlutoData)
    (newTicks : List ℚ) (d : PlutoData)
    (h : interpolateRadialGrid data newTicks = some d) :
    d.x1 = newTicks ∧ d.x2 = data.x2 ∧ d.dx1 = data.dx1 ∧
    d.dx2 = data.dx2 ∧
    (newTicks.length ≠ data.x1.length → data.dx1.length = data.x1.length →
      d.dx1.length ≠ d.x1.length) := by
  unfold interpolateRadialGrid at h
  cases hm : mapOpt (fun kv : String × List (List ℚ) =>
      (mapOpt (fun row => mapOpt (interp1d data.x1 row) newTicks) kv.2).map
        (fun rows => (kv.1, rows))) data.vars with
  | none =>
    rw [hm] at h
    cases h
  | some nv =>
    rw [hm] at h
    have hd : { data with vars := nv, x1 := newTicks } = d := Option.some.inj h
    subst hd
    refine ⟨rfl, rfl, rfl, rfl, ?_⟩
    intro hne hinv
    show data.dx1.length ≠ newTicks.length
    rw [hinv]
    exact fun hc => hne hc.symm

/-- The concrete result of resampling `sampleData` onto the single tick
`[0]`. -/
def sampleDataInterp : PlutoData :=
  { x1 := [0], x2 := [5], dx1 := [1, 1], dx2 := [2]
    vars := [("rho", [[3 + (0 - 0) * (4 - 3) / (1 - 0)]])] }

/-- Witness for C10: resampling the concrete data onto one tick leaves `x2`,
`dx1`, `dx2` untouched and breaks `len(dx1) == len(x1)`. -/
theorem interpolateRadialGrid_frame_effect_witness :
    sampleDataInterp.x2 = sampleData.x2 ∧
    sampleDataInterp.dx1 = sampleData.dx1 ∧
    sampleDataInterp.dx2 = sampleData.dx2 ∧
    sampleDataInterp.dx1.length ≠ sampleDataInterp.x1.length := by
  have h : interpolateRadialGrid sampleData [0] = some sampleDataInterp := rfl
  have hc := interpolateRadialGrid_frame_effect sampleData [0]
    sampleDataInterp h
  refine ⟨hc.2.1, hc.2.2.1, hc.2.2.2.1, ?_⟩
  exact hc.2.2.2.2 (by show 1 ≠ ([(0 : ℚ), 1]).length; simp)
    (by show ([(1 : ℚ), 1]).length = ([(0 : ℚ), 1]).length; rfl)

end PlutoTools
